import Mathlib

/-!
Shallow embedding of the cdvelop/compose docker-compose builder.

The embedding translates the Go sources: the service builder and YAML
serializer (docker-compose.go and its revision carrying per-service error
accumulation and the environment secret split), the .env key-value helpers
(AddEnvToFile, readEnvFile, writeEnvFile) and the .gitignore editor
(handleGitignore).

Go strings are modelled as Lean String; the byte-level helpers of the Go
standard library that the code uses (strings.Split on a one-character
separator, strings.SplitN(s, sep, 2), strings.TrimSpace, strings.Join) are
re-implemented below on List Char so that every definition evaluates inside
the kernel.  Go maps (map[string]string) are modelled as association lists
carrying the map content; since Go map iteration order is unspecified, every
place where the code ranges over a map is modelled by quantifying over a
permutation of that association list (see envPermuted / Generates).
-/

namespace Compose

/-- strings.Split s sep for a one-character separator: splits on every
occurrence of the separator, never returns the empty list. -/
def splitChar (c : Char) : List Char → List (List Char)
  | [] => [[]]
  | a :: as =>
    if a = c then [] :: splitChar c as
    else
      match splitChar c as with
      | [] => [[a]]
      | l :: ls => (a :: l) :: ls

/-- The ASCII white-space test used by strings.TrimSpace (the sources only
ever trim ASCII text). -/
def isSpaceGo (c : Char) : Bool :=
  c = ' ' || c = '\t' || c = '\n' || c = '\r' || c = '\x0b' || c = '\x0c'

/-- strings.TrimSpace on the character list of a string. -/
def trimSpace (s : List Char) : List Char :=
  ((s.dropWhile isSpaceGo).reverse.dropWhile isSpaceGo).reverse

/-- strings.Split(s, newline). -/
def splitLines (s : String) : List String :=
  (splitChar '\n' s.data).map String.mk

/-- strings.TrimSpace at the String level. -/
def trimS (s : String) : String := String.mk (trimSpace s.data)

/-- strings.SplitN(s, sep, 2) for a one-character separator, returning the
two parts when the separator occurs, none otherwise. -/
def splitFirst (c : Char) : List Char → Option (List Char × List Char)
  | [] => none
  | a :: as =>
    if a = c then some ([], as)
    else (splitFirst c as).map (fun p => (a :: p.1, p.2))

/-- strings.Join ls sep. -/
def joinSep (sep : String) : List String → String
  | [] => ""
  | [x] => x
  | x :: y :: xs => x ++ sep ++ joinSep sep (y :: xs)

/-- strings.Join at the character level, used to reason about joinSep. -/
def joinChar (c : Char) : List (List Char) → List Char
  | [] => []
  | [x] => x
  | x :: y :: xs => x ++ c :: joinChar c (y :: xs)

/-- fmt %q on a string: wrap in double quotes, escaping the quote, the
backslash and the common control characters appearing in this code base. -/
def goEscapeChar (c : Char) : String :=
  if c = '"' then "\\\""
  else if c = '\\' then "\\\\"
  else if c = '\n' then "\\n"
  else if c = '\t' then "\\t"
  else if c = '\r' then "\\r"
  else String.singleton c

/-- fmt %q of a string value. -/
def goQuote (s : String) : String :=
  "\"" ++ String.join (s.data.map goEscapeChar) ++ "\""

/-- Content of a Go map[string]string as an association list with unique
keys in insertion order; m[key] = value updates in place on an existing key
and appends a fresh key. -/
def upsert (key value : String) : List (String × String) →
    List (String × String)
  | [] => [(key, value)]
  | p :: ps =>
    if p.1 = key then (key, value) :: ps else p :: upsert key value ps

/-- Go map lookup m[key]. -/
def lookupA (m : List (String × String)) (key : String) : Option String :=
  (m.find? (fun p => p.1 = key)).map (fun p => p.2)

/-- healthCheck struct of docker-compose.go. -/
structure healthCheck where
  Test : List String
  Interval : String
  Timeout : String
  Retries : Int
deriving DecidableEq, Repr

/-- Volume struct of docker-compose.go. -/
structure Volume where
  Source : String
  Target : String
deriving DecidableEq, Repr

/-- service struct of docker-compose.go: one container definition together
with the accumulated construction errors (error values are modelled by
their message strings). -/
structure service where
  name : String
  image : String
  containerName : String
  ports : List String
  environment : List (String × String)
  volumes : List Volume
  serviceDependencies : List String
  command : String
  networks : List String
  restartPolicy : String
  healthCheck : Option healthCheck
  errors : List String
deriving DecidableEq, Repr

/-- composeConfig struct of docker-compose.go (the revision under
verification: NewCompose stores the version and the services and derives
nothing else; the volumes field keeps its zero value). -/
structure composeConfig where
  version : String
  services : List service
  volumes : List Volume
deriving DecidableEq, Repr

/-- NewService: containerName defaults to name, every collection starts
empty. -/
def NewService (name : String) : service :=
  { name := name
    image := ""
    containerName := name
    ports := []
    environment := []
    volumes := []
    serviceDependencies := []
    command := ""
    networks := []
    restartPolicy := ""
    healthCheck := none
    errors := [] }

/-- NewCompose: captures the version and the services; no derivation. -/
def NewCompose (version : String) (services : List service) : composeConfig :=
  { version := version, services := services, volumes := [] }

/-- SetContainerName. -/
def SetContainerName (s : service) (n : String) : service :=
  { s with containerName := n }

/-- SetImage. -/
def SetImage (s : service) (image : String) : service :=
  { s with image := image }

/-- SetRestartPolicy. -/
def SetRestartPolicy (s : service) (policy : String) : service :=
  { s with restartPolicy := policy }

/-- SetHealthCheck. -/
def SetHealthCheck (s : service) (test : List String)
    (interval timeout : String) (retries : Int) : service :=
  let hc : healthCheck :=
    { Test := test, Interval := interval, Timeout := timeout,
      Retries := retries }
  { s with healthCheck := some hc }

/-- AddPort: appends host:container to the port sequence. -/
def AddPort (s : service) (host container : String) : service :=
  { s with ports := s.ports ++ [host ++ ":" ++ container] }

/-- AddVolume: appends to the volume sequence. -/
def AddVolume (s : service) (v : Volume) : service :=
  { s with volumes := s.volumes ++ [v] }

/-- DependsOn: appends each argument service name, in order. -/
def DependsOn (s : service) (deps : List service) : service :=
  { s with serviceDependencies :=
      s.serviceDependencies ++ deps.map (fun d => d.name) }

/-- The state AddEnvironment acts on: the service under construction and
the content of the external secrets (.env) key-value store, abstracted to
its map content (AddEnvToFile upserts one key into that store). -/
structure EnvState where
  svc : service
  secrets : List (String × String)
deriving DecidableEq, Repr

/-- The ${key} placeholder AddEnvironment writes as public value when the
variable is resolved from the process environment. -/
def placeholder (key : String) : String := "$\x7b" ++ key ++ "\x7d"

/-- The message of the error recorded for a missing process environment
variable: fmt.Errorf("environment variable %s not found", key). -/
def missingEnvMsg (key : String) : String :=
  "environment variable " ++ key ++ " not found"

/-- AddEnvironment(key, value...): with an explicit value, public and
private value are both that value; otherwise the key is looked up in the
process environment procEnv: absent records an error on the service and
stops, present yields the ${key} placeholder publicly and the looked-up
value privately.  A non-empty private value is upserted into the secrets
store (AddEnvToFile); the public value is stored in the service
environment map. -/
def AddEnvironment (procEnv : String → Option String) (st : EnvState)
    (key : String) (value : Option String) : EnvState :=
  match value with
  | some v =>
    { svc := { st.svc with environment := upsert key v st.svc.environment }
      secrets := if v = "" then st.secrets else upsert key v st.secrets }
  | none =>
    match procEnv key with
    | none =>
      { st with svc :=
          { st.svc with errors := st.svc.errors ++ [missingEnvMsg key] } }
    | some val =>
      { svc := { st.svc with
          environment := upsert key (placeholder key) st.svc.environment }
        secrets := if val = "" then st.secrets else upsert key val st.secrets }

/-- The image line of a service block, emitted unconditionally by
generateYAML. -/
def imageLine (image : String) : String :=
  "    image: " ++ goQuote image ++ "\n"

/-- The container_name line, emitted only for a non-empty containerName. -/
def containerNameLine (n : String) : String :=
  if n = "" then "" else "    container_name: " ++ goQuote n ++ "\n"

/-- The ports block: header plus one dash line per port (quoted with a
plain %s inside literal quotes), only when the sequence is non-empty. -/
def portsSection (ports : List String) : String :=
  if ports.isEmpty then ""
  else "    ports:\n"
    ++ String.join (ports.map (fun p => "      - \"" ++ p ++ "\"\n"))

/-- The environment block in the order the entries are presented by the
map iteration, only when the map is non-empty. -/
def envSection (env : List (String × String)) : String :=
  if env.isEmpty then ""
  else "    environment:\n"
    ++ String.join (env.map (fun kv =>
        "      " ++ goQuote kv.1 ++ ": " ++ goQuote kv.2 ++ "\n"))

/-- The volumes block of a service, source:target unquoted. -/
def volumesSection (vols : List Volume) : String :=
  if vols.isEmpty then ""
  else "    volumes:\n"
    ++ String.join (vols.map (fun v =>
        "      - " ++ v.Source ++ ":" ++ v.Target ++ "\n"))

/-- The depends_on block. -/
def dependsSection (deps : List String) : String :=
  if deps.isEmpty then ""
  else "    depends_on:\n"
    ++ String.join (deps.map (fun d => "      - " ++ goQuote d ++ "\n"))

/-- The command line, only when the command is non-empty. -/
def commandLine (cmd : String) : String :=
  if cmd = "" then "" else "    command: " ++ goQuote cmd ++ "\n"

/-- The networks block. -/
def networksSection (nets : List String) : String :=
  if nets.isEmpty then ""
  else "    networks:\n"
    ++ String.join (nets.map (fun n => "      - " ++ goQuote n ++ "\n"))

/-- The restart line, only when the policy is non-empty. -/
def restartLine (policy : String) : String :=
  if policy = "" then "" else "    restart: " ++ goQuote policy ++ "\n"

/-- The interval line of a healthcheck, only when non-empty. -/
def intervalLine (i : String) : String :=
  if i = "" then "" else "      interval: " ++ goQuote i ++ "\n"

/-- The timeout line of a healthcheck, only when non-empty. -/
def timeoutLine (t : String) : String :=
  if t = "" then "" else "      timeout: " ++ goQuote t ++ "\n"

/-- The retries line of a healthcheck, only when positive. -/
def retriesLine (r : Int) : String :=
  if r > 0 then "      retries: " ++ toString r ++ "\n" else ""

/-- The healthcheck block: emitted whenever a healthCheck is set; the test
header is written unconditionally in that case, the scalar sub-fields only
when non-empty or positive. -/
def healthSection (h : Option healthCheck) : String :=
  match h with
  | none => ""
  | some hc =>
    "    healthcheck:\n      test:\n"
      ++ String.join (hc.Test.map (fun t => "        - " ++ goQuote t ++ "\n"))
      ++ intervalLine hc.Interval ++ timeoutLine hc.Timeout
      ++ retriesLine hc.Retries

/-- One service block of generateYAML, in the fixed field order of the
code. -/
def serviceYAML (s : service) : String :=
  "  " ++ s.containerName ++ ":\n"
    ++ imageLine s.image
    ++ containerNameLine s.containerName
    ++ portsSection s.ports
    ++ envSection s.environment
    ++ volumesSection s.volumes
    ++ dependsSection s.serviceDependencies
    ++ commandLine s.command
    ++ networksSection s.networks
    ++ restartLine s.restartPolicy
    ++ healthSection s.healthCheck

/-- generateYAML: a service with pending errors contributes its errors and
no block; when any error was collected the whole render fails with the
joined error list (errors.Join) and no bytes, otherwise the version line,
the services header and the service blocks are produced.  The environment
map of each service is rendered in the order the association list presents
it; the nondeterminism of Go map iteration is captured by Generates
below. -/
def generateYAML (c : composeConfig) : Except (List String) String :=
  if (c.services.map (fun s => s.errors)).flatten = [] then
    .ok ("version: " ++ goQuote c.version ++ "\nservices:\n"
      ++ String.join (c.services.map (fun s =>
          if s.errors = [] then serviceYAML s else "")))
  else
    .error ((c.services.map (fun s => s.errors)).flatten)

/-- os.WriteFile: creates or truncates the file and writes the data.  A
failure point k models an I/O error after k bytes were written: the file is
left holding the partial prefix (the write is not atomic).  Returns the
resulting file content and whether the write succeeded. -/
def writeFileGo (data : String) (failAt : Option Nat) : Option String × Bool :=
  match failAt with
  | none => (some data, true)
  | some k => (some (String.mk (data.data.take k)), false)

/-- SaveIfDifferent over a single-file filesystem (none = the file does
not exist): render, then write when the file is absent, do nothing when the
existing content is byte-identical, overwrite with os.WriteFile otherwise.
Returns the resulting file content and whether the call succeeded. -/
def SaveIfDifferent (c : composeConfig) (fs : Option String)
    (failAt : Option Nat) : Option String × Bool :=
  match generateYAML c with
  | .error _ => (fs, false)
  | .ok y =>
    match fs with
    | none => writeFileGo y failAt
    | some cur => if cur = y then (fs, true) else writeFileGo y failAt

/-- One line of a .env file as parsed by readEnvFile: trim the line, split
on the first equals sign; lines without an equals sign parse to nothing. -/
def parseEnvLine (line : String) : Option (String × String) :=
  match splitFirst '=' (trimSpace line.data) with
  | none => none
  | some (k, v) => some (String.mk k, String.mk v)

/-- One step of the readEnvFile loop: a line that parses is upserted into
the accumulated map, any other line is skipped. -/
def envStep (m : List (String × String)) (l : String) :
    List (String × String) :=
  match parseEnvLine l with
  | none => m
  | some kv => upsert kv.1 kv.2 m

/-- readEnvFile: a missing file (or any read error) yields the empty map;
otherwise every line that parses contributes its pair to the map, later
lines overriding earlier ones with the same key. -/
def readEnvFile (content : Option String) : List (String × String) :=
  match content with
  | none => []
  | some d => (splitLines d).foldl envStep []

/-- AddEnvToFile at the map level: parse the existing file, upsert the new
pair; the result is the map whose pairs writeEnvFile then persists. -/
def AddEnvToFile (key value : String) (content : Option String) :
    List (String × String) :=
  upsert key value (readEnvFile content)

/-- writeEnvFile on one presentation of the map: one KEY=value line per
pair, each newline-terminated.  Go ranges over the map, so the pair order
the file ends up with is an unspecified permutation of the map content. -/
def writeEnvFile (m : List (String × String)) : String :=
  String.join (m.map (fun kv => kv.1 ++ "=" ++ kv.2 ++ "\n"))

/-- The line list handleGitignore starts from: the file content split on
newlines, or the empty list when the file cannot be read. -/
def gitignoreLines (content : Option String) : List String :=
  match content with
  | none => []
  | some d => splitLines d

/-- The trailing empty-line removal handleGitignore performs before
appending. -/
def dropTrailingEmpty (ls : List String) : List String :=
  (ls.reverse.dropWhile (fun l => l = "")).reverse

/-- The line-list transformation of handleGitignore: when some existing
line trims to the entry nothing changes, otherwise trailing empty lines
are removed and the entry is appended. -/
def handleGitignoreLines (ls : List String) (entry : String) : List String :=
  if ls.any (fun l => trimS l = entry) then ls
  else dropTrailingEmpty ls ++ [entry]

/-- handleGitignore on the file content: when some existing line trims to
the entry the file is left untouched (no write), otherwise the retained
lines plus the entry are joined with newlines and written with a final
trailing newline. -/
def handleGitignore (content : Option String) (entry : String) :
    Option String :=
  if (gitignoreLines content).any (fun l => trimS l = entry) then content
  else some (joinSep "\n"
    (dropTrailingEmpty (gitignoreLines content) ++ [entry]) ++ "\n")

/-- Two services with the same fields whose environment maps are the same
map: the association lists are permutations of one another.  Go iterates
the map in an unspecified order, so any such permutation is a possible
iteration order. -/
def serviceEnvPerm (s t : service) : Prop :=
  t = { s with environment := t.environment } ∧
    s.environment.Perm t.environment

/-- Two configurations describing the same document up to the map
iteration order of each service environment. -/
def envPermuted (c c' : composeConfig) : Prop :=
  c'.version = c.version ∧ c'.volumes = c.volumes ∧
    List.Forall₂ serviceEnvPerm c.services c'.services

/-- The renders the Go program may produce for a configuration: generateYAML
applied to any presentation of the per-service environment maps. -/
def Generates (c : composeConfig) (r : Except (List String) String) : Prop :=
  ∃ c', envPermuted c c' ∧ generateYAML c' = r

/-- Decidable equality of render results, used to evaluate the model on
concrete documents. -/
instance exceptDecEq {ε α : Type} [DecidableEq ε] [DecidableEq α] :
    DecidableEq (Except ε α) := fun a b =>
  match a, b with
  | .error x, .error y =>
    if h : x = y then .isTrue (congrArg Except.error h)
    else .isFalse (fun hc => h (Except.error.inj hc))
  | .error _, .ok _ => .isFalse (fun hc => Except.noConfusion hc)
  | .ok _, .error _ => .isFalse (fun hc => Except.noConfusion hc)
  | .ok x, .ok y =>
    if h : x = y then .isTrue (congrArg Except.ok h)
    else .isFalse (fun hc => h (Except.ok.inj hc))

/-- An empty process environment: every lookup misses. -/
def noProcEnv : String → Option String := fun _ => none

/-- A process environment carrying DB_PASSWORD=secret123 and nothing
else. -/
def sampleProcEnv : String → Option String :=
  fun k => if k = "DB_PASSWORD" then some "secret123" else none

/-- The api service of the repository test, built through the fluent
chain: image, then two explicit environment variables. -/
def stApi : EnvState :=
  AddEnvironment noProcEnv
    (AddEnvironment noProcEnv
      { svc := SetImage (NewService "api") "golang:1.19", secrets := [] }
      "DB_HOST" (some "db"))
    "DB_PORT" (some "5432")

/-- A one-service document over stApi. -/
def cfgApi : composeConfig := NewCompose "0.1" [stApi.svc]

/-- The same service with the other presentation of its two-entry
environment map. -/
def svcApiSwap : service :=
  { stApi.svc with environment := [("DB_PORT", "5432"), ("DB_HOST", "db")] }

/-- The document over the swapped presentation. -/
def cfgApiSwap : composeConfig := NewCompose "0.1" [svcApiSwap]

/-- Ports A, B, C added in order. -/
def svcPorts : service :=
  AddPort (AddPort (AddPort (NewService "web") "1" "a") "2" "b") "3" "c"

/-- Environment A=1 then B=2 then the re-add A=3. -/
def stReAdd : EnvState :=
  AddEnvironment noProcEnv
    (AddEnvironment noProcEnv
      (AddEnvironment noProcEnv { svc := NewService "w", secrets := [] }
        "A" (some "1"))
      "B" (some "2"))
    "A" (some "3")

/-- One-service document over the re-added environment. -/
def cfgReAdd : composeConfig := NewCompose "1.0" [stReAdd.svc]

/-- The swapped presentation of the re-added environment map. -/
def cfgReAddSwap : composeConfig :=
  NewCompose "1.0" [{ stReAdd.svc with environment := [("B", "2"), ("A", "3")] }]

/-- A db service referencing named volume db_data. -/
def dbVol : service :=
  AddVolume (SetImage (NewService "db") "postgres:14")
    ⟨"db_data", "/var/lib/postgresql/data"⟩

/-- A second service referencing the same named volume db_data. -/
def apiVol : service :=
  AddVolume (SetImage (NewService "api") "golang:1.19") ⟨"db_data", "/db_data"⟩

/-- The two-service document whose services both reference db_data. -/
def cfgVol : composeConfig := NewCompose "0.1" [dbVol, apiVol]

/-- A service that accumulated a missing-variable error through the
chain. -/
def stMissing : EnvState :=
  AddEnvironment noProcEnv { svc := NewService "db", secrets := [] }
    "UNSET_VAR" none

/-- A document holding the failed service. -/
def cfgMissing : composeConfig := NewCompose "1.0" [stMissing.svc]

/-- A document whose only service is error-free. -/
def cfgClean : composeConfig := NewCompose "1.0" [NewService "ok"]

/-- The empty document, used to exercise SaveIfDifferent. -/
def cfgEmpty : composeConfig := NewCompose "1.0" []

theorem mk_data (s : String) : String.mk s.data = s := rfl

theorem append_ne_empty (p q : String) (h : p.data ≠ []) : p ++ q ≠ "" := by
  intro hc
  apply h
  have h2 := congrArg String.data hc
  rw [String.data_append] at h2
  exact (List.append_eq_nil.mp h2).1

theorem data_append_ne_nil_left (p q : String) (h : p.data ≠ []) :
    (p ++ q).data ≠ [] := by
  rw [String.data_append]
  intro hc
  exact h (List.append_eq_nil.mp hc).1

theorem lookupA_cons (p : String × String) (ps : List (String × String))
    (k : String) :
    lookupA (p :: ps) k = if p.1 = k then some p.2 else lookupA ps k := by
  by_cases h : p.1 = k <;> simp [lookupA, List.find?, h]

theorem lookupA_upsert (k v : String) (m : List (String × String))
    (x : String) :
    lookupA (upsert k v m) x = if x = k then some v else lookupA m x := by
  induction m with
  | nil =>
    by_cases h : x = k
    · simp [upsert, lookupA_cons, h]
    · rw [upsert, lookupA_cons, if_neg (fun hh => h hh.symm), if_neg h]
  | cons p ps ih =>
    by_cases hp : p.1 = k
    · by_cases hx : x = k
      · rw [upsert, if_pos hp, lookupA_cons, if_pos hx.symm, if_pos hx]
      · rw [upsert, if_pos hp, lookupA_cons, if_neg (fun hh => hx hh.symm),
          if_neg hx, lookupA_cons, if_neg (fun hh => hx (hh.symm.trans hp))]
    · by_cases hx : x = k
      · rw [upsert, if_neg hp, lookupA_cons, if_neg (by rw [hx]; exact hp), ih,
          if_pos hx, if_pos hx]
      · rw [upsert, if_neg hp, lookupA_cons, ih, if_neg hx, lookupA_cons,
          if_neg hx]

theorem serviceEnvPerm_refl (s : service) : serviceEnvPerm s s :=
  ⟨rfl, List.Perm.refl _⟩

theorem envPermuted_refl (c : composeConfig) : envPermuted c c :=
  ⟨rfl, rfl, List.forall₂_same.mpr (fun s _ => serviceEnvPerm_refl s)⟩

theorem serviceEnvPerm_errors {s t : service} (h : serviceEnvPerm s t) :
    t.errors = s.errors := by
  rw [h.1]

theorem forall₂_errorsMap {as bs : List service}
    (h : List.Forall₂ serviceEnvPerm as bs) :
    bs.map (fun s => s.errors) = as.map (fun s => s.errors) := by
  induction h with
  | nil => rfl
  | cons hst _ ih => simp [ih, serviceEnvPerm_errors hst]

theorem envPermuted_errorsMap {c c' : composeConfig} (h : envPermuted c c') :
    c'.services.map (fun s => s.errors) = c.services.map (fun s => s.errors) :=
  forall₂_errorsMap h.2.2

theorem splitChar_ne_nil (c : Char) (s : List Char) : splitChar c s ≠ [] := by
  induction s with
  | nil => simp [splitChar]
  | cons a as ih =>
    rw [splitChar]
    split
    · simp
    · cases h : splitChar c as <;> simp

theorem splitChar_append (c : Char) (l rest : List Char)
    (h : ∀ a ∈ l, a ≠ c) (hd : List Char) (tl : List (List Char))
    (hr : splitChar c rest = hd :: tl) :
    splitChar c (l ++ rest) = (l ++ hd) :: tl := by
  induction l with
  | nil => simpa using hr
  | cons a as ih =>
    have ha : a ≠ c := h a (by simp)
    have ih2 := ih (fun x hx => h x (by simp [hx]))
    rw [List.cons_append, splitChar, if_neg ha, ih2]
    simp

theorem mem_splitChar (c : Char) (s : List Char) :
    ∀ x ∈ splitChar c s, c ∉ x := by
  induction s with
  | nil =>
    intro x hx
    simp [splitChar] at hx
    simp [hx]
  | cons a as ih =>
    intro x hx
    rw [splitChar] at hx
    by_cases ha : a = c
    · rw [if_pos ha] at hx
      rcases List.mem_cons.mp hx with h1 | h1
      · simp [h1]
      · exact ih x h1
    · rw [if_neg ha] at hx
      rcases hsp : splitChar c as with _ | ⟨hd, tl⟩
      · exact absurd hsp (splitChar_ne_nil c as)
      · rw [hsp] at hx
        rcases List.mem_cons.mp hx with h1 | h1
        · subst h1
          intro hmem
          rcases List.mem_cons.mp hmem with h2 | h2
          · exact ha h2.symm
          · exact ih hd (by rw [hsp]; simp) h2
        · exact ih x (by rw [hsp]; simp [h1])

theorem splitChar_joinChar (c : Char) (ls : List (List Char)) (h0 : ls ≠ [])
    (hm : ∀ l ∈ ls, c ∉ l) :
    splitChar c (joinChar c ls ++ [c]) = ls ++ [[]] := by
  induction ls with
  | nil => exact absurd rfl h0
  | cons x xs ih =>
    cases xs with
    | nil =>
      have hx : ∀ a ∈ x, a ≠ c := by
        intro a ha hac
        exact hm x (by simp) (hac ▸ ha)
      have : splitChar c [c] = [] :: [[]] := by simp [splitChar]
      simpa [joinChar] using splitChar_append c x [c] hx [] [[]] this
    | cons y ys =>
      have hx : ∀ a ∈ x, a ≠ c := by
        intro a ha hac
        exact hm x (by simp) (hac ▸ ha)
      have ihr := ih (by simp)
        (fun l hl => hm l (by simp [List.mem_cons.mp hl]))
      have hstep : splitChar c (c :: (joinChar c (y :: ys) ++ [c])) =
          [] :: ((y :: ys) ++ [[]]) := by
        rw [splitChar, if_pos rfl, ihr]
      have := splitChar_append c x (c :: (joinChar c (y :: ys) ++ [c])) hx
        [] ((y :: ys) ++ [[]]) hstep
      simpa [joinChar, List.append_assoc] using this

theorem data_joinSep (ls : List String) :
    (joinSep "\n" ls).data = joinChar '\n' (ls.map String.data) := by
  induction ls with
  | nil => rfl
  | cons x xs ih =>
    cases xs with
    | nil => rfl
    | cons y ys =>
      show (x ++ "\n" ++ joinSep "\n" (y :: ys)).data = _
      rw [String.data_append, String.data_append]
      simp [joinChar, ih]

theorem splitLines_joinSep (ls : List String) (h0 : ls ≠ [])
    (hm : ∀ l ∈ ls, '\n' ∉ l.data) :
    splitLines (joinSep "\n" ls ++ "\n") = ls ++ [""] := by
  unfold splitLines
  rw [String.data_append, data_joinSep]
  have h0m : ls.map String.data ≠ [] := by
    simpa using h0
  have hmm : ∀ l ∈ ls.map String.data, '\n' ∉ l := by
    intro l hl
    rcases List.mem_map.mp hl with ⟨s, hs, rfl⟩
    exact hm s hs
  rw [show ("\n" : String).data = ['\n'] from rfl,
    splitChar_joinChar '\n' (ls.map String.data) h0m hmm]
  rw [List.map_append, List.map_map,
    show (String.mk ∘ String.data) = id from funext mk_data, List.map_id]
  rfl

theorem mem_splitLines_no_newline (s : String) :
    ∀ x ∈ splitLines s, '\n' ∉ x.data := by
  intro x hx
  rcases List.mem_map.mp hx with ⟨l, hl, rfl⟩
  exact mem_splitChar '\n' s.data l hl

theorem mem_dropTrailingEmpty {ls : List String} {x : String}
    (h : x ∈ dropTrailingEmpty ls) : x ∈ ls := by
  unfold dropTrailingEmpty at h
  rw [List.mem_reverse] at h
  have := (List.dropWhile_sublist (l := ls.reverse)
    (p := fun l => l = "")).mem h
  rwa [List.mem_reverse] at this

theorem lookupA_env_foldl (ls : List String) (m : List (String × String))
    (k : String) :
    lookupA (ls.foldl envStep m) k ≠ none ↔
      (∃ l ∈ ls, ∃ v, parseEnvLine l = some (k, v)) ∨ lookupA m k ≠ none := by
  induction ls generalizing m with
  | nil => simp
  | cons l ls ih =>
    rw [List.foldl_cons, ih]
    rcases hp : parseEnvLine l with _ | ⟨k0, v0⟩
    · simp [envStep, hp]
    · have : lookupA (envStep m l) k ≠ none ↔
          k = k0 ∨ lookupA m k ≠ none := by
        simp only [envStep, hp]
        rw [lookupA_upsert]
        by_cases hk : k = k0 <;> simp [hk]
      rw [this]
      constructor
      · rintro (⟨l1, hl1, v1, hv1⟩ | hk | hm)
        · exact Or.inl ⟨l1, by simp [hl1], v1, hv1⟩
        · exact Or.inl ⟨l, by simp, v0, by rw [hp, hk]⟩
        · exact Or.inr hm
      · rintro (⟨l1, hl1, v1, hv1⟩ | hm)
        · rcases List.mem_cons.mp hl1 with rfl | hl1
          · rw [hp] at hv1
            exact Or.inr (Or.inl (by injection hv1 with h; injection h; simp_all))
          · exact Or.inl ⟨l1, hl1, v1, hv1⟩
        · exact Or.inr (Or.inr hm)

/-- C3: AddEnvironment with no explicit value and the process environment
mapping the key to v stores the dollar-brace placeholder as the public
environment value and upserts the key with v into the secrets store;
with an explicit value it stores that value publicly and upserts it; the
secrets-store upsert happens exactly when the private value is
non-empty. -/
theorem addEnvironment_secret_split (procEnv : String → Option String)
    (st : EnvState) (key v ev : String) :
    (procEnv key = some v →
      AddEnvironment procEnv st key none =
        { svc := { st.svc with
            environment := upsert key (placeholder key) st.svc.environment },
          secrets := if v = "" then st.secrets else upsert key v st.secrets })
    ∧ AddEnvironment procEnv st key (some ev) =
        { svc := { st.svc with
            environment := upsert key ev st.svc.environment },
          secrets := if ev = "" then st.secrets
                     else upsert key ev st.secrets } := by
  constructor
  · intro h
    simp [AddEnvironment, h]
  · simp [AddEnvironment]

theorem addEnvironment_secret_split_witness :
    AddEnvironment sampleProcEnv { svc := NewService "db", secrets := [] }
        "DB_PASSWORD" none =
      { svc := { NewService "db" with
          environment := [("DB_PASSWORD", "$\x7bDB_PASSWORD\x7d")] },
        secrets := [("DB_PASSWORD", "secret123")] } ∧
    AddEnvironment sampleProcEnv { svc := NewService "db", secrets := [] }
        "DB_NAME" (some "app") =
      { svc := { NewService "db" with environment := [("DB_NAME", "app")] },
        secrets := [("DB_NAME", "app")] } := by
  constructor
  · rw [(addEnvironment_secret_split sampleProcEnv
      { svc := NewService "db", secrets := [] }
      "DB_PASSWORD" "secret123" "app").1 (by decide)]
    decide
  · rw [(addEnvironment_secret_split sampleProcEnv
      { svc := NewService "db", secrets := [] }
      "DB_NAME" "secret123" "app").2]
    decide

/-- C4: for a key absent from the process environment, AddEnvironment with
no explicit value appends exactly one missing-variable error to the
service error list and changes nothing else: the environment association,
the secrets store and every other service field are untouched, and the
same service is returned for further chaining. -/
theorem addEnvironment_missing_var (procEnv : String → Option String)
    (st : EnvState) (key : String) (h : procEnv key = none) :
    AddEnvironment procEnv st key none =
      { st with svc :=
          { st.svc with errors := st.svc.errors ++ [missingEnvMsg key] } } := by
  simp [AddEnvironment, h]

theorem addEnvironment_missing_var_witness :
    AddEnvironment noProcEnv { svc := NewService "web", secrets := [] }
        "UNSET_VAR" none =
      { svc := { NewService "web" with
          errors := ["environment variable UNSET_VAR not found"] },
        secrets := [] } := by
  rw [addEnvironment_missing_var noProcEnv
    { svc := NewService "web", secrets := [] } "UNSET_VAR" rfl]
  decide

/-- C2: when any service carries a non-empty error list, every possible
render fails with the aggregate of every pending error from every service
in order and produces no output bytes, and SaveIfDifferent fails and
leaves the filesystem untouched; when every error list is empty, every
render succeeds. -/
theorem generateYAML_all_or_nothing (c : composeConfig) :
    ((∃ s ∈ c.services, s.errors ≠ []) →
      (c.services.map (fun s => s.errors)).flatten ≠ [] ∧
      (∀ r, Generates c r →
        r = .error ((c.services.map (fun s => s.errors)).flatten)) ∧
      (∀ c' fs failAt, envPermuted c c' →
        SaveIfDifferent c' fs failAt = (fs, false)))
    ∧ ((∀ s ∈ c.services, s.errors = []) →
        ∀ r, Generates c r → ∃ y, r = .ok y) := by
  constructor
  · rintro ⟨s0, hs0, hne⟩
    have hflat : (c.services.map (fun s => s.errors)).flatten ≠ [] := by
      obtain ⟨e, he⟩ := List.exists_mem_of_ne_nil _ hne
      intro hnil
      have hmem : e ∈ (c.services.map (fun s => s.errors)).flatten :=
        List.mem_flatten.mpr ⟨s0.errors, List.mem_map_of_mem _ hs0, he⟩
      rw [hnil] at hmem
      exact (List.not_mem_nil e) hmem
    have herr : ∀ c', envPermuted c c' →
        generateYAML c' = .error ((c.services.map (fun s => s.errors)).flatten) := by
      intro c' hperm
      unfold generateYAML
      rw [envPermuted_errorsMap hperm, if_neg hflat]
    refine ⟨hflat, ?_, ?_⟩
    · rintro r ⟨c', hperm, hgen⟩
      rw [← hgen, herr c' hperm]
    · intro c' fs failAt hperm
      unfold SaveIfDifferent
      rw [herr c' hperm]
  · intro hall r hr
    rcases hr with ⟨c', hperm, hgen⟩
    have h0 : (c.services.map (fun s => s.errors)).flatten = [] := by
      rw [List.flatten_eq_nil_iff]
      intro x hx
      rcases List.mem_map.mp hx with ⟨s, hs, rfl⟩
      exact hall s hs
    have hok : generateYAML c' =
        .ok ("version: " ++ goQuote c'.version ++ "\nservices:\n"
          ++ String.join (c'.services.map (fun s =>
              if s.errors = [] then serviceYAML s else ""))) := by
      unfold generateYAML
      rw [envPermuted_errorsMap hperm, if_pos h0]
    exact ⟨_, by rw [← hgen, hok]⟩

theorem generateYAML_all_or_nothing_witness :
    SaveIfDifferent cfgMissing none none = (none, false) ∧
    (∃ y, generateYAML cfgClean = Except.ok y) := by
  constructor
  · exact ((generateYAML_all_or_nothing cfgMissing).1
      ⟨stMissing.svc, by decide, by decide⟩).2.2 cfgMissing none none
      (envPermuted_refl cfgMissing)
  · exact (generateYAML_all_or_nothing cfgClean).2 (by decide)
      (generateYAML cfgClean) ⟨cfgClean, envPermuted_refl cfgClean, rfl⟩

/-- C5 (amended): with a successful render, SaveIfDifferent writes the
rendered bytes when the file is absent, performs no write when the file is
byte-identical, and overwrites when it differs — but the overwrite is a
plain truncating write, not an atomic one; in the failure-free case a
second save with the same rendering is a content-level no-op. -/
theorem saveIfDifferent_behavior (c : composeConfig) (y : String)
    (h : generateYAML c = .ok y) :
    SaveIfDifferent c none none = (some y, true) ∧
    SaveIfDifferent c (some y) none = (some y, true) ∧
    (∀ cur, cur ≠ y → SaveIfDifferent c (some cur) none = (some y, true)) ∧
    (∀ fs, SaveIfDifferent c (SaveIfDifferent c fs none).1 none =
      ((SaveIfDifferent c fs none).1, true)) := by
  have e1 : SaveIfDifferent c none none = (some y, true) := by
    unfold SaveIfDifferent
    rw [h]
    rfl
  have e2 : SaveIfDifferent c (some y) none = (some y, true) := by
    unfold SaveIfDifferent
    rw [h]
    simp
  have e3 : ∀ cur, cur ≠ y →
      SaveIfDifferent c (some cur) none = (some y, true) := by
    intro cur hc
    unfold SaveIfDifferent
    rw [h]
    simp [hc, writeFileGo]
  refine ⟨e1, e2, e3, ?_⟩
  intro fs
  cases fs with
  | none =>
    rw [e1]
    exact e2
  | some cur =>
    by_cases hc : cur = y
    · subst hc
      rw [e2]
      exact e2
    · rw [e3 cur hc]
      exact e2

theorem saveIfDifferent_behavior_witness :
    SaveIfDifferent cfgEmpty none none =
      (some "version: \"1.0\"\nservices:\n", true) ∧
    SaveIfDifferent cfgEmpty (some "old") none =
      (some "version: \"1.0\"\nservices:\n", true) := by
  have h := saveIfDifferent_behavior cfgEmpty "version: \"1.0\"\nservices:\n"
    (by decide)
  exact ⟨h.1, h.2.2.1 "old" (by decide)⟩

/-- C5 counterexample: the overwrite path is os.WriteFile, a truncating
in-place write; an I/O failure after zero bytes leaves the file truncated
empty, so the previous file state is not intact. -/
theorem saveIfDifferent_not_atomic :
    SaveIfDifferent cfgEmpty (some "previous") (some 0) = (some "", false) ∧
    (SaveIfDifferent cfgEmpty (some "previous") (some 0)).1 ≠
      some "previous" := by
  decide

/-- C1: the render is not deterministic — for the fixed builder sequence
behind cfgApi (two environment variables), two renders may present the
environment map in different Go map iteration orders and produce
different bytes. -/
theorem generateYAML_nondeterministic :
    Generates cfgApi (generateYAML cfgApi) ∧
    Generates cfgApi (generateYAML cfgApiSwap) ∧
    generateYAML cfgApi ≠ generateYAML cfgApiSwap := by
  refine ⟨⟨cfgApi, envPermuted_refl cfgApi, rfl⟩,
    ⟨cfgApiSwap, ⟨rfl, rfl, ?_⟩, rfl⟩, by decide⟩
  refine List.Forall₂.cons ⟨?_, ?_⟩ List.Forall₂.nil
  · decide
  · decide

set_option maxRecDepth 40000 in
/-- C6: NewCompose derives no document-level volumes at all — for any
version and services the document volumes list is empty, and in
particular the two-service document whose services both reference named
volume db_data renders with no document volumes section, against the
claimed single db_data entry. -/
theorem newCompose_derives_no_volumes :
    (∀ (version : String) (ss : List service),
      (NewCompose version ss).volumes = []) ∧
    cfgVol.volumes = [] ∧
    dbVol.volumes = [⟨"db_data", "/var/lib/postgresql/data"⟩] ∧
    apiVol.volumes = [⟨"db_data", "/db_data"⟩] ∧
    generateYAML cfgVol = .ok
      ("version: \"0.1\"\nservices:\n  db:\n    image: \"postgres:14\"\n"
        ++ "    container_name: \"db\"\n    volumes:\n"
        ++ "      - db_data:/var/lib/postgresql/data\n  api:\n"
        ++ "    image: \"golang:1.19\"\n    container_name: \"api\"\n"
        ++ "    volumes:\n      - db_data:/db_data\n") := by
  exact ⟨fun v ss => rfl, by decide, by decide, by decide, by decide⟩

/-- C7: ports added in order A, B, C are stored and rendered exactly in
that order, and re-adding an existing environment key updates its stored
value in place; but the rendered environment block follows the
unspecified Go map iteration order, so the re-added key's position in the
rendered block is not stable between renders. -/
theorem order_preservation_and_env_position :
    svcPorts.ports = ["1:a", "2:b", "3:c"] ∧
    portsSection svcPorts.ports =
      "    ports:\n      - \"1:a\"\n      - \"2:b\"\n      - \"3:c\"\n" ∧
    stReAdd.svc.environment = [("A", "3"), ("B", "2")] ∧
    Generates cfgReAdd (generateYAML cfgReAdd) ∧
    Generates cfgReAdd (generateYAML cfgReAddSwap) ∧
    generateYAML cfgReAdd ≠ generateYAML cfgReAddSwap := by
  refine ⟨by decide, by decide, by decide,
    ⟨cfgReAdd, envPermuted_refl cfgReAdd, rfl⟩,
    ⟨cfgReAddSwap, ⟨rfl, rfl, ?_⟩, rfl⟩, by decide⟩
  refine List.Forall₂.cons ⟨?_, ?_⟩ List.Forall₂.nil
  · decide
  · decide

/-- C8 (amended): every list- or string-valued service field is omitted
from the rendered block exactly when it is empty, the healthcheck block
exactly when no health check is set, and the retries line exactly when
retries is not positive — with two exceptions: the image line is always
emitted, even for an unset (empty) image, and a set health check always
emits its test header, even when the test token list is empty (the block
then carries a bare test header with no token lines). -/
theorem fields_omitted_iff_empty (s : service) (hc : healthCheck) :
    (∀ interval timeout retries,
      healthSection (some ⟨[], interval, timeout, retries⟩) =
        "    healthcheck:\n      test:\n" ++ intervalLine interval
          ++ timeoutLine timeout ++ retriesLine retries) ∧
    (portsSection s.ports = "" ↔ s.ports = []) ∧
    (envSection s.environment = "" ↔ s.environment = []) ∧
    (volumesSection s.volumes = "" ↔ s.volumes = []) ∧
    (dependsSection s.serviceDependencies = "" ↔
      s.serviceDependencies = []) ∧
    (commandLine s.command = "" ↔ s.command = "") ∧
    (networksSection s.networks = "" ↔ s.networks = []) ∧
    (restartLine s.restartPolicy = "" ↔ s.restartPolicy = "") ∧
    (containerNameLine s.containerName = "" ↔ s.containerName = "") ∧
    (healthSection s.healthCheck = "" ↔ s.healthCheck = none) ∧
    (intervalLine hc.Interval = "" ↔ hc.Interval = "") ∧
    (timeoutLine hc.Timeout = "" ↔ hc.Timeout = "") ∧
    (retriesLine hc.Retries = "" ↔ hc.Retries ≤ 0) ∧
    imageLine s.image ≠ "" := by
  refine ⟨?_, ?_, ?_, ?_, ?_, ?_, ?_, ?_, ?_, ?_, ?_, ?_, ?_, ?_⟩
  · intro interval timeout retries
    simp [healthSection, String.join]
  · by_cases h : s.ports = []
    · simp [portsSection, h]
    · refine iff_of_false ?_ h
      rw [portsSection, if_neg (by simpa [List.isEmpty_iff] using h)]
      exact append_ne_empty _ _ (by decide)
  · by_cases h : s.environment = []
    · simp [envSection, h]
    · refine iff_of_false ?_ h
      rw [envSection, if_neg (by simpa [List.isEmpty_iff] using h)]
      exact append_ne_empty _ _ (by decide)
  · by_cases h : s.volumes = []
    · simp [volumesSection, h]
    · refine iff_of_false ?_ h
      rw [volumesSection, if_neg (by simpa [List.isEmpty_iff] using h)]
      exact append_ne_empty _ _ (by decide)
  · by_cases h : s.serviceDependencies = []
    · simp [dependsSection, h]
    · refine iff_of_false ?_ h
      rw [dependsSection, if_neg (by simpa [List.isEmpty_iff] using h)]
      exact append_ne_empty _ _ (by decide)
  · by_cases h : s.command = ""
    · simp [commandLine, h]
    · refine iff_of_false ?_ h
      rw [commandLine, if_neg h]
      exact append_ne_empty _ _ (data_append_ne_nil_left _ _ (by decide))
  · by_cases h : s.networks = []
    · simp [networksSection, h]
    · refine iff_of_false ?_ h
      rw [networksSection, if_neg (by simpa [List.isEmpty_iff] using h)]
      exact append_ne_empty _ _ (by decide)
  · by_cases h : s.restartPolicy = ""
    · simp [restartLine, h]
    · refine iff_of_false ?_ h
      rw [restartLine, if_neg h]
      exact append_ne_empty _ _ (data_append_ne_nil_left _ _ (by decide))
  · by_cases h : s.containerName = ""
    · simp [containerNameLine, h]
    · refine iff_of_false ?_ h
      rw [containerNameLine, if_neg h]
      exact append_ne_empty _ _ (data_append_ne_nil_left _ _ (by decide))
  · cases hh : s.healthCheck with
    | none => simp [healthSection]
    | some hc0 =>
      refine iff_of_false ?_ (by simp)
      show "    healthcheck:\n      test:\n"
          ++ String.join (hc0.Test.map (fun t => "        - " ++ goQuote t ++ "\n"))
          ++ intervalLine hc0.Interval ++ timeoutLine hc0.Timeout
          ++ retriesLine hc0.Retries ≠ ""
      exact append_ne_empty _ _ (data_append_ne_nil_left _ _
        (data_append_ne_nil_left _ _ (data_append_ne_nil_left _ _ (by decide))))
  · by_cases h : hc.Interval = ""
    · simp [intervalLine, h]
    · refine iff_of_false ?_ h
      rw [intervalLine, if_neg h]
      exact append_ne_empty _ _ (data_append_ne_nil_left _ _ (by decide))
  · by_cases h : hc.Timeout = ""
    · simp [timeoutLine, h]
    · refine iff_of_false ?_ h
      rw [timeoutLine, if_neg h]
      exact append_ne_empty _ _ (data_append_ne_nil_left _ _ (by decide))
  · by_cases h : hc.Retries > 0
    · refine iff_of_false ?_ (by omega)
      rw [retriesLine, if_pos h]
      exact append_ne_empty _ _ (data_append_ne_nil_left _ _ (by decide))
    · rw [retriesLine, if_neg h]
      exact iff_of_true rfl (by omega)
  · rw [imageLine]
    exact append_ne_empty _ _ (data_append_ne_nil_left _ _ (by decide))

/-- C8 counterexample: a service with an unset image still renders an
image line carrying the empty string, and a set health check with an
empty test token list still renders a bare test header — two empty
emissions the claim forbids. -/
theorem unset_image_still_emitted :
    imageLine "" = "    image: \"\"\n" ∧ imageLine "" ≠ "" ∧
    serviceYAML (NewService "x") =
      "  x:\n    image: \"\"\n    container_name: \"x\"\n" ∧
    healthSection (some ⟨[], "", "", 0⟩) = "    healthcheck:\n      test:\n" ∧
    serviceYAML (SetHealthCheck (NewService "x") [] "" "" 0) =
      ("  x:\n    image: \"\"\n    container_name: \"x\"\n"
        ++ "    healthcheck:\n      test:\n") := by
  decide

/-- C9 (amended): the ignore-list editor appends the entry only when no
existing line equals it after trimming whitespace; when it appends, the
retained lines (trailing empty lines removed) are preserved verbatim and
in order, the entry occurs exactly once, and the written file carries a
final trailing newline (its line split ends with an empty segment);
when a line already trims to the entry the file is left untouched, and
the editor is idempotent. -/
theorem handleGitignore_trimmed_idempotent (content : Option String)
    (e : String) (htrim : trimS e = e) (hnl : '\n' ∉ e.data) :
    handleGitignore (handleGitignore content e) e =
      handleGitignore content e ∧
    ((gitignoreLines content).any (fun l => trimS l = e) = true →
      handleGitignore content e = content) ∧
    ((gitignoreLines content).any (fun l => trimS l = e) = false →
      handleGitignore content e =
        some (joinSep "\n"
          (dropTrailingEmpty (gitignoreLines content) ++ [e]) ++ "\n") ∧
      splitLines (joinSep "\n"
          (dropTrailingEmpty (gitignoreLines content) ++ [e]) ++ "\n") =
        dropTrailingEmpty (gitignoreLines content) ++ [e, ""] ∧
      List.count e (dropTrailingEmpty (gitignoreLines content) ++ [e]) = 1) := by
  by_cases hA : (gitignoreLines content).any (fun l => trimS l = e) = true
  · have h1 : handleGitignore content e = content := by
      rw [handleGitignore, if_pos hA]
    refine ⟨?_, fun _ => h1, fun hF => absurd hA (by rw [hF]; decide)⟩
    rw [h1, h1]
  · have hwrite : handleGitignore content e =
        some (joinSep "\n"
          (dropTrailingEmpty (gitignoreLines content) ++ [e]) ++ "\n") := by
      rw [handleGitignore, if_neg hA]
    have hmem : ∀ l ∈ dropTrailingEmpty (gitignoreLines content) ++ [e],
        '\n' ∉ l.data := by
      intro l hl
      rcases List.mem_append.mp hl with h1 | h1
      · have h2 := mem_dropTrailingEmpty h1
        cases content with
        | none => simp [gitignoreLines] at h2
        | some d => exact mem_splitLines_no_newline d l h2
      · rw [List.mem_singleton] at h1
        subst h1
        exact hnl
    have hsplit := splitLines_joinSep
      (dropTrailingEmpty (gitignoreLines content) ++ [e]) (by simp) hmem
    have hsplit2 : splitLines (joinSep "\n"
        (dropTrailingEmpty (gitignoreLines content) ++ [e]) ++ "\n") =
        dropTrailingEmpty (gitignoreLines content) ++ [e, ""] := by
      rw [hsplit, List.append_assoc]
      rfl
    have hnotmem : e ∉ dropTrailingEmpty (gitignoreLines content) := by
      intro hmem2
      exact hA (List.any_eq_true.mpr
        ⟨e, mem_dropTrailingEmpty hmem2, by simp [htrim]⟩)
    have hcount : List.count e
        (dropTrailingEmpty (gitignoreLines content) ++ [e]) = 1 := by
      rw [List.count_append, List.count_eq_zero.mpr hnotmem]
      simp
    refine ⟨?_, fun hh => absurd hh hA, fun _ => ⟨hwrite, hsplit2, hcount⟩⟩
    rw [hwrite, handleGitignore]
    rw [show gitignoreLines (some (joinSep "\n"
        (dropTrailingEmpty (gitignoreLines content) ++ [e]) ++ "\n")) =
      splitLines (joinSep "\n"
        (dropTrailingEmpty (gitignoreLines content) ++ [e]) ++ "\n") from rfl]
    rw [hsplit2]
    rw [if_pos (List.any_eq_true.mpr ⟨e, by simp, by simp [htrim]⟩)]

theorem handleGitignore_trimmed_idempotent_witness :
    handleGitignore (handleGitignore (some "*.log\n") ".env") ".env" =
      handleGitignore (some "*.log\n") ".env" ∧
    handleGitignore (some "*.log\n") ".env" = some "*.log\n.env\n" := by
  have h := handleGitignore_trimmed_idempotent (some "*.log\n") ".env"
    (by decide) (by decide)
  refine ⟨h.1, ?_⟩
  rw [(h.2.2 (by decide)).1]
  decide

/-- C9 counterexample: a file whose only line is the entry surrounded by
whitespace already counts as present (the match is on trimmed lines, not
exact lines), so nothing is appended and the file never gains the entry
as an exact line. -/
theorem handleGitignore_not_exact_match :
    handleGitignore (some " .env\n") ".env" = some " .env\n" ∧
    ".env" ∉ splitLines " .env\n" := by
  decide

/-- C10 (amended): AddEnvToFile rewrites the secrets file to the parsed
map plus the upserted pair; a key survives the rewrite exactly when some
line of the old file trims-and-splits to it on the first equals sign, so
blank lines and lines without an equals sign are discarded while any line
containing one — comment or not — is retained as a pair. -/
theorem addEnvToFile_keeps_only_eq_lines (content : Option String)
    (key value k : String) :
    lookupA (AddEnvToFile key value content) key = some value ∧
    (k ≠ key → lookupA (AddEnvToFile key value content) k =
      lookupA (readEnvFile content) k) ∧
    readEnvFile none = [] ∧
    (∀ d : String, lookupA (readEnvFile (some d)) k ≠ none ↔
      ∃ line ∈ splitLines d, ∃ v, parseEnvLine line = some (k, v)) := by
  refine ⟨?_, ?_, rfl, ?_⟩
  · rw [AddEnvToFile, lookupA_upsert, if_pos rfl]
  · intro hk
    rw [AddEnvToFile, lookupA_upsert, if_neg hk]
  · intro d
    rw [show readEnvFile (some d) = (splitLines d).foldl envStep [] from rfl]
    rw [lookupA_env_foldl]
    simp [lookupA]

theorem addEnvToFile_keeps_only_eq_lines_witness :
    lookupA (AddEnvToFile "NEW_VAR" "new_value" (some "EXISTING=value\n"))
      "NEW_VAR" = some "new_value" ∧
    lookupA (AddEnvToFile "NEW_VAR" "new_value" (some "EXISTING=value\n"))
      "EXISTING" = some "value" := by
  have h := addEnvToFile_keeps_only_eq_lines (some "EXISTING=value\n")
    "NEW_VAR" "new_value" "EXISTING"
  refine ⟨h.1, ?_⟩
  rw [h.2.1 (by decide)]
  decide

/-- C10 counterexample: a comment line that contains an equals sign is
not discarded by the rewrite — it is parsed as a pair and kept, so the
rewritten file still carries it. -/
theorem comment_line_with_eq_retained :
    readEnvFile (some "#A=B\n") = [("#A", "B")] ∧
    AddEnvToFile "K" "V" (some "#A=B\n") = [("#A", "B"), ("K", "V")] ∧
    lookupA (AddEnvToFile "K" "V" (some "#A=B\n")) "#A" = some "B" := by
  decide

end Compose
